import Mathlib

/-!
# CogniGraph backend: a shallow embedding with verified properties

This file embeds the core logic of the CogniGraph backend
(`rag_engine.py`, `graph_agent.py`, `llm_client.py`, `main.py`) as
executable Lean definitions and proves properties of the embedded code.

Texts are modelled as `List Char` (Python strings are sequences of
characters); machine integers do not occur (all counters are small
naturals); fallible operations are modelled with `Option`/`Except`.
-/

namespace CogniGraph

/-! ### Retrieval-index chunking (`rag_engine.RAGEngine.add_document`)

Python source:
```
chunk_size = 1000
overlap = 200
chunks = []
start = 0
while start < len(text):
    end = start + chunk_size
    chunks.append(text[start:end])
    start += (chunk_size - overlap)
ids = [f"(doc_id)_(i)" for i in range(len(chunks))]
```
The slice `text[start:start+1000]` is `(text.drop start).take 1000`,
and the stride is `1000 - 200 = 800`.  The chunker is a pure function
of the text, so two runs on the same text produce identical chunks.
-/

/-- The chunking loop of `add_document`, started at offset `start`. -/
def chunksFrom (text : List Char) (start : Nat) : List (List Char) :=
  if h : start < text.length then
    ((text.drop start).take 1000) :: chunksFrom text (start + 800)
  else []
termination_by text.length - start
decreasing_by omega

/-- The chunks produced by `add_document` for a document `text`. -/
def add_document_chunks (text : List Char) : List (List Char) :=
  chunksFrom text 0

/-- The chunk ids produced by `add_document`:
`ids = [f"(doc_id)_(i)" for i in range(len(chunks))]`. -/
def chunk_ids (docId : String) (n : Nat) : List String :=
  (List.range n).map fun i => docId ++ "_" ++ toString i

theorem chunksFrom_unfold (text : List Char) (start : Nat) :
    chunksFrom text start =
      if start < text.length then
        ((text.drop start).take 1000) :: chunksFrom text (start + 800)
      else [] := by
  rw [chunksFrom]
  by_cases h : start < text.length
  · rw [dif_pos h, if_pos h]
  · rw [dif_neg h, if_neg h]

/-- Closed form of the chunking loop: a window of length 1000 read at
every offset `start + 800*i` that is below the text length. -/
theorem chunksFrom_eq_range (text : List Char) (start : Nat) :
    chunksFrom text start =
      (List.range ((text.length - start + 799) / 800)).map
        (fun i => (text.drop (start + 800 * i)).take 1000) := by
  rw [chunksFrom_unfold]
  by_cases h : start < text.length
  · rw [if_pos h]
    have ih := chunksFrom_eq_range text (start + 800)
    rw [ih]
    have hn : (text.length - start + 799) / 800
        = (text.length - (start + 800) + 799) / 800 + 1 := by omega
    rw [hn, List.range_succ_eq_map, List.map_cons, List.map_map]
    have hhead : List.take 1000 (List.drop (start + 800 * 0) text)
        = List.take 1000 (List.drop start text) := by norm_num
    have htail : ∀ a ∈ List.range ((text.length - (start + 800) + 799) / 800),
        List.take 1000 (List.drop (start + 800 + 800 * a) text)
          = ((fun i => List.take 1000 (List.drop (start + 800 * i) text)) ∘ Nat.succ) a := by
      intro a _
      have hx : start + 800 + 800 * a = start + 800 * (a + 1) := by ring
      simp only [Function.comp_apply, Nat.succ_eq_add_one, hx]
    rw [hhead, List.map_congr_left htail]
  · rw [if_neg h]
    have hz : (text.length - start + 799) / 800 = 0 := by omega
    rw [hz]
    rfl
termination_by text.length - start
decreasing_by omega

theorem chunksFrom_length (text : List Char) (start : Nat) :
    (chunksFrom text start).length = (text.length - start + 799) / 800 := by
  rw [chunksFrom_eq_range, List.length_map, List.length_range]

/-- C5: for every non-empty document (written `c :: rest`, so that the
length hypothesis is structural), `add_document` produces one chunk per
start offset `800*i` below the length, chunk `i` is exactly
`text[800*i : 800*i + 1000]`, consecutive chunks share a 200-character
overlap region, and chunk `i` is paired with id `doc_id ++ "_" ++ i`.
Chunking is a pure function of the text, so re-running `reset` followed
by `add_document` on the same text reproduces the same boundaries. -/
theorem add_document_chunking (c : Char) (rest : List Char) :
    add_document_chunks (c :: rest) =
      (List.range (((c :: rest).length + 799) / 800)).map
        (fun i => ((c :: rest).drop (800 * i)).take 1000)
    ∧ (add_document_chunks (c :: rest)).length = ((c :: rest).length + 799) / 800
    ∧ (∀ i : Nat, i < (add_document_chunks (c :: rest)).length ↔ 800 * i < (c :: rest).length)
    ∧ (∀ i : Nat, (add_document_chunks (c :: rest)).get? i =
        if 800 * i < (c :: rest).length
        then some (((c :: rest).drop (800 * i)).take 1000) else none)
    ∧ (add_document_chunks (c :: rest)).head? = some ((c :: rest).take 1000)
    ∧ (∀ i : Nat, (((c :: rest).drop (800 * i)).take 1000).drop 800 =
        (((c :: rest).drop (800 * (i + 1))).take 1000).take 200)
    ∧ (∀ docId : String, ∀ i : Nat,
        (chunk_ids docId (add_document_chunks (c :: rest)).length).get? i =
          if i < (add_document_chunks (c :: rest)).length
          then some (docId ++ "_" ++ toString i) else none) := by
  set text := c :: rest with htext
  have hlen : 0 < text.length := by simp [htext]
  have hform : add_document_chunks text =
      (List.range ((text.length + 799) / 800)).map
        (fun i => (text.drop (800 * i)).take 1000) := by
    rw [add_document_chunks, chunksFrom_eq_range]
    simp
  have hcount : (add_document_chunks text).length = (text.length + 799) / 800 := by
    rw [hform, List.length_map, List.length_range]
  refine ⟨hform, hcount, ?_, ?_, ?_, ?_, ?_⟩
  · intro i
    rw [hcount]
    omega
  · intro i
    rw [hform, List.get?_map]
    by_cases h : i < (text.length + 799) / 800
    · rw [List.get?_range h, if_pos (by omega)]
      rfl
    · rw [List.get?_eq_none.mpr (by simp; omega), if_neg (by omega)]
      rfl
  · have hn1 : (text.length + 799) / 800 = ((text.length + 799) / 800 - 1) + 1 := by omega
    rw [hform, hn1, List.range_succ_eq_map, List.map_cons, List.head?_cons]
    simp
  · intro i
    rw [List.drop_take, List.drop_drop, List.take_take]
    have h1 : (1000 : Nat) - 800 = 200 := by norm_num
    have h2 : min 200 1000 = 200 := by norm_num
    have h3 : 800 * i + 800 = 800 * (i + 1) := by ring
    rw [h1, h2, h3]
  · intro docId i
    rw [chunk_ids, List.get?_map]
    by_cases h : i < (add_document_chunks text).length
    · rw [List.get?_range h, if_pos h]
      rfl
    · rw [List.get?_eq_none.mpr (by simp; omega), if_neg h]
      rfl

/-! ### Dynamic relationship target (`graph_agent.extract_graph_from_text`)

Python source:
```
input_text = text[:60000]
char_count = len(input_text)
dynamic_limit = 20 + (char_count // 500)
dynamic_limit = min(dynamic_limit, 80)
```
The resulting number is interpolated into the extraction prompt at
"Target: Extract at least (dynamic_limit) relationships ...". -/

/-- `char_count = len(text[:60000])`: length after truncation. -/
def char_count (textLen : Nat) : Nat := min textLen 60000

/-- `dynamic_limit = min(20 + char_count // 500, 80)`, as a function of
the raw document length. -/
def dynamic_limit (textLen : Nat) : Nat :=
  min (20 + char_count textLen / 500) 80

/-- The spec's formula, written from its words:
`clamp(20 + floor(char_count / 500), 20, 80)`. -/
def clampSpec (x lo hi : Nat) : Nat := max lo (min x hi)

/-- C6: the relationship target embedded in the prompt equals
`clamp(20 + floor(char_count / 500), 20, 80)` where `char_count` is the
length after truncation to 60,000 characters; `char_count = 0` gives 20,
`char_count = 30000` gives 80, and a 100,000-character document is
truncated to 60,000 characters and gives 80, not 220. -/
theorem dynamic_limit_clamped :
    (∀ textLen : Nat, dynamic_limit textLen = clampSpec (20 + char_count textLen / 500) 20 80)
    ∧ dynamic_limit 0 = 20
    ∧ dynamic_limit 30000 = 80
    ∧ char_count 100000 = 60000
    ∧ dynamic_limit 100000 = 80 := by
  refine ⟨?_, by decide, by decide, by decide, by decide⟩
  intro textLen
  unfold dynamic_limit clampSpec
  omega

/-! ### 429 handling (`llm_client.query_llm`)

Python source (the `except HTTPError` branch, status 429):
```
retry_after = e.response.headers.get("Retry-After")
reset_time = e.response.headers.get("x-ratelimit-reset-requests")
def format_time(seconds):
    s = int(float(seconds))
    if s < 60: return f"(s)s"
    elif s < 3600: return f"(s//60)m (s%60)s"
    else: return f"(s//3600)h ((s%3600)//60)m"
wait_time_seconds = 0
if retry_after: wait_time_seconds = retry_after
elif reset_time: wait_time_seconds = reset_time
human_readable = format_time(wait_time_seconds)
raise Exception(f"API Rate Limit Hit. Please wait (human_readable) "
                f"(wait (wait_time_seconds)s) before trying again.")
```
Headers carrying numeric second counts are modelled as `Option Nat`
(`none` = header absent); `int(float(s))` on such a value is the value
itself.  Note both the human-readable estimate and the raw seconds
value appear in the raised message. -/

/-- `format_time` of `query_llm`, on a parsed seconds value. -/
def format_time (s : Nat) : String :=
  if s < 60 then toString s ++ "s"
  else if s < 3600 then toString (s / 60) ++ "m " ++ toString (s % 60) ++ "s"
  else toString (s / 3600) ++ "h " ++ toString (s % 3600 / 60) ++ "m"

/-- The selected wait value: `Retry-After` if present, else
`x-ratelimit-reset-requests`, else 0. -/
def wait_time_seconds (retryAfter resetRequests : Option Nat) : Nat :=
  match retryAfter with
  | some r => r
  | none =>
    match resetRequests with
    | some t => t
    | none => 0

/-- The message of the exception raised on HTTP 429. -/
def rate_limit_message (retryAfter resetRequests : Option Nat) : String :=
  "API Rate Limit Hit. Please wait "
    ++ format_time (wait_time_seconds retryAfter resetRequests)
    ++ " (wait " ++ toString (wait_time_seconds retryAfter resetRequests)
    ++ "s) before trying again."

/-- C7: on HTTP 429 the wait estimate comes from `Retry-After` when
present, else from `x-ratelimit-reset-requests`, else it is "0s", and
the raw seconds value is embedded machine-readably in the same message;
`Retry-After: 30` gives "30s" with raw 30, and no `Retry-After` with
`x-ratelimit-reset-requests: 125` gives "2m 5s" with raw 125. -/
theorem rate_limit_429 :
    (∀ s : Nat, ∀ rt : Option Nat, wait_time_seconds (some s) rt = s)
    ∧ (∀ s : Nat, wait_time_seconds none (some s) = s)
    ∧ wait_time_seconds none none = 0
    ∧ format_time (wait_time_seconds none none) = "0s"
    ∧ rate_limit_message (some 30) none =
        "API Rate Limit Hit. Please wait 30s (wait 30s) before trying again."
    ∧ rate_limit_message none (some 125) =
        "API Rate Limit Hit. Please wait 2m 5s (wait 125s) before trying again." := by
  refine ⟨fun s rt => rfl, fun s => rfl, rfl, rfl, ?_, ?_⟩ <;> decide

/-! ### Graph assembly (`graph_agent.GraphAgent.extract_graph_from_text`)

Python source (the graph-building part):
```
self.graph.clear()
... query the model, parse JSON ...
triples = data.get("triples", [])
if not triples:
    return [], rate_limits
temp_graph = nx.Graph()
root_node = "Document"
temp_graph.add_node(root_node, group=0)
for item in triples:
    if not isinstance(item, dict) or 'source' not in item
       or 'target' not in item or 'relation' not in item:
        continue
    src = item['source']; tgt = item['target']; rel = item['relation']
    if not src or not tgt:
        continue
    temp_graph.add_node(src, group=1)
    temp_graph.add_node(tgt, group=1)
    temp_graph.add_edge(src, tgt, label=rel)
    temp_graph.add_edge(root_node, src, label="contains")
self.graph = temp_graph
return triples, rate_limits
```
`nx.Graph()` is a *simple* undirected graph: nodes form a dictionary
keyed by identifier (re-adding a node overwrites its attributes), and
there is at most one edge per unordered pair of nodes (re-adding an
edge overwrites its attributes).  The model below mirrors this:
`setGroup` is `add_node` (update-or-append with a `group` attribute),
`ensureNode` is the attribute-less node creation performed by
`add_edge` for missing endpoints, and `setEdge` updates the first edge
entry whose unordered endpoint pair matches, else appends.

Items of the parsed `triples` array are modelled by `TripleItem`:
`other` is any non-record JSON value, and `record` carries the three
optional string fields (`none` = key missing; the spec's data model
restricts field values to strings).  On any exception (gateway failure
or a response with no recoverable JSON) the function re-raises after
`self.graph.clear()` has already run, which `extract_graph_from_text`
below models by the `none` outcome. -/

/-- One item of the parsed "triples" array. -/
inductive TripleItem where
  | other : TripleItem
  | record (source target relation : Option String) : TripleItem
deriving DecidableEq

/-- The per-item validation test: `isinstance(item, dict)`, all three
keys present, and `src` and `tgt` truthy (non-empty). -/
def accepted : TripleItem → Bool
  | .record (some s) (some t) (some _) => decide (s ≠ "") && decide (t ≠ "")
  | _ => false

/-- The `source` field of an item, when the item is a record. -/
def TripleItem.srcOf : TripleItem → Option String
  | .record s _ _ => s
  | .other => none

/-- The `target` field of an item, when the item is a record. -/
def TripleItem.tgtOf : TripleItem → Option String
  | .record _ t _ => t
  | .other => none

/-- The state of a `networkx` graph: insertion-ordered node entries
(identifier with optional `group` attribute) and insertion-ordered edge
entries (endpoint pair with `label` attribute). -/
structure GraphState where
  nodes : List (String × Option Nat)
  edges : List ((String × String) × String)
deriving DecidableEq

/-- A cleared graph (`self.graph.clear()` / `nx.Graph()`). -/
def emptyGraph : GraphState := ⟨[], []⟩

/-- `add_node(key, group=grp)` on the node dictionary: overwrite the
attribute of an existing entry, else append a new entry. -/
def setGroup : List (String × Option Nat) → String → Nat → List (String × Option Nat)
  | [], key, grp => [(key, some grp)]
  | p :: ps, key, grp =>
    if p.1 = key then (key, some grp) :: ps else p :: setGroup ps key grp

/-- Node creation performed by `add_edge` for a missing endpoint: the
node is added without a `group` attribute; an existing entry is kept. -/
def ensureNode : List (String × Option Nat) → String → List (String × Option Nat)
  | [], key => [(key, none)]
  | p :: ps, key => if p.1 = key then p :: ps else p :: ensureNode ps key

/-- Whether two stored endpoint pairs denote the same undirected edge. -/
def samePair (a b : String × String) : Bool :=
  decide ((a.1 = b.1 ∧ a.2 = b.2) ∨ (a.1 = b.2 ∧ a.2 = b.1))

/-- `add_edge(u, v, label=lab)` on the edge list: overwrite the label of
the existing entry for the unordered pair, else append. -/
def setEdge : List ((String × String) × String) → String × String → String →
    List ((String × String) × String)
  | [], p, lab => [(p, lab)]
  | e :: es, p, lab =>
    if samePair e.1 p then (e.1, lab) :: es else e :: setEdge es p lab

/-- `temp_graph.add_node(key, group=grp)`. -/
def add_node (g : GraphState) (key : String) (grp : Nat) : GraphState :=
  ⟨setGroup g.nodes key grp, g.edges⟩

/-- `temp_graph.add_edge(u, v, label=lab)`. -/
def add_edge (g : GraphState) (u v lab : String) : GraphState :=
  ⟨ensureNode (ensureNode g.nodes u) v, setEdge g.edges (u, v) lab⟩

/-- The body of the `for item in triples` loop for one item. -/
def processItem (g : GraphState) (it : TripleItem) : GraphState :=
  match it with
  | .record (some s) (some t) (some r) =>
    if s = "" ∨ t = "" then g
    else add_edge (add_edge (add_node (add_node g s 1) t 1) s t r) "Document" s "contains"
  | _ => g

/-- The graph built from a (non-empty) triple list: start from
`nx.Graph()` with `add_node("Document", group=0)`, then run the loop. -/
def assemble (ts : List TripleItem) : GraphState :=
  ts.foldl processItem (add_node emptyGraph "Document" 0)

/-- `extract_graph_from_text`, abstracted over the parsed model output.
`none` is any failure (gateway error, or a response from which no JSON
object can be recovered): the function re-raises, and `self.graph` is
the graph cleared at the top of the call.  `some []` hits the
early-return for an empty triple list, again leaving the cleared graph.
Otherwise the built graph replaces the held graph and the *raw* parsed
list is returned. -/
def extract_graph_from_text (_prior : GraphState) (outcome : Option (List TripleItem)) :
    GraphState × Option (List TripleItem) :=
  match outcome with
  | none => (emptyGraph, none)
  | some [] => (emptyGraph, some [])
  | some ts => (assemble ts, some ts)

/-- Dictionary lookup on the node list. -/
def lookupNode : List (String × Option Nat) → String → Option (Option Nat)
  | [], _ => none
  | p :: ps, key => if p.1 = key then some p.2 else lookupNode ps key

/-- Lookup of the label of the undirected edge joining a pair, if any. -/
def lookupEdge : List ((String × String) × String) → String × String → Option String
  | [], _ => none
  | e :: es, p => if samePair e.1 p then some e.2 else lookupEdge es p

/-- Number of node entries carrying a given identifier. -/
def countKey (ns : List (String × Option Nat)) (key : String) : Nat :=
  (ns.filter fun p => decide (p.1 = key)).length

/-- `get_graph_data`: one node record per node (missing `group`
defaults to 1) and one link record per stored edge. -/
def get_graph_data (g : GraphState) : List (String × Nat) × List (String × String × String) :=
  (g.nodes.map fun p => (p.1, p.2.getD 1), g.edges.map fun e => (e.1.1, e.1.2, e.2))

/-- Whether some accepted item names "Document" as source or target. -/
def namesDocument (ts : List TripleItem) : Bool :=
  ts.any fun it => accepted it &&
    (decide (it.srcOf = some "Document") || decide (it.tgtOf = some "Document"))

/-- Whether no accepted item has source "Document". -/
def noDocumentSource (ts : List TripleItem) : Bool :=
  ts.all fun it => !(accepted it) || decide (it.srcOf ≠ some "Document")

theorem samePair_refl (a : String × String) : samePair a a = true := by
  simp [samePair]

theorem samePair_symm (a b : String × String) : samePair a b = samePair b a := by
  obtain ⟨a1, a2⟩ := a
  obtain ⟨b1, b2⟩ := b
  simp only [samePair, decide_eq_decide]
  constructor
  · rintro (⟨h1, h2⟩ | ⟨h1, h2⟩)
    · exact Or.inl ⟨h1.symm, h2.symm⟩
    · exact Or.inr ⟨h2.symm, h1.symm⟩
  · rintro (⟨h1, h2⟩ | ⟨h1, h2⟩)
    · exact Or.inl ⟨h1.symm, h2.symm⟩
    · exact Or.inr ⟨h2.symm, h1.symm⟩

theorem samePair_trans {a b c : String × String}
    (h1 : samePair a b = true) (h2 : samePair b c = true) : samePair a c = true := by
  obtain ⟨a1, a2⟩ := a
  obtain ⟨b1, b2⟩ := b
  obtain ⟨c1, c2⟩ := c
  simp only [samePair, decide_eq_true_eq] at *
  rcases h1 with ⟨h, h'⟩ | ⟨h, h'⟩ <;> rcases h2 with ⟨g, g'⟩ | ⟨g, g'⟩ <;>
    subst_vars <;> simp

/-- If `e` and `p` denote the same undirected pair, they match the same
queries. -/
theorem samePair_congr_left {e p : String × String} (he : samePair e p = true)
    (q : String × String) : samePair e q = samePair p q := by
  cases hq : samePair p q
  · cases heq : samePair e q
    · rfl
    · exfalso
      have hep : samePair p e = true := by rw [← samePair_symm]; exact he
      have : samePair p q = true := samePair_trans hep heq
      rw [hq] at this
      exact Bool.false_ne_true this
  · exact samePair_trans he hq

/-- Effect of `setEdge` on edge lookups: the written pair now maps to
the new label, every other pair is untouched. -/
theorem lookupEdge_setEdge (es : List ((String × String) × String))
    (p : String × String) (lab : String) (q : String × String) :
    lookupEdge (setEdge es p lab) q =
      if samePair p q then some lab else lookupEdge es q := by
  induction es with
  | nil => simp [setEdge, lookupEdge]
  | cons e es ih =>
    by_cases he : samePair e.1 p = true
    · have hcongr := samePair_congr_left he q
      rw [setEdge, if_pos he]
      cases hq : samePair p q
      · have hq2 : samePair e.1 q = false := by rw [hcongr, hq]
        simp [lookupEdge, hq2, hq]
      · have hq2 : samePair e.1 q = true := by rw [hcongr, hq]
        simp [lookupEdge, hq2, hq]
    · have he' : samePair e.1 p = false := by simpa using he
      rw [setEdge, if_neg he]
      cases heq : samePair e.1 q
      · simp [lookupEdge, heq, ih]
      · have hpq : samePair p q = false := by
          cases hpq : samePair p q
          · rfl
          · exfalso
            have hqp : samePair q p = true := by rw [samePair_symm q p, hpq]
            have hep : samePair e.1 p = true := samePair_trans heq hqp
            rw [he'] at hep
            exact Bool.false_ne_true hep
        simp [lookupEdge, heq, hpq]

theorem lookupNode_setGroup (ns : List (String × Option Nat)) (key k : String) (grp : Nat) :
    lookupNode (setGroup ns key grp) k =
      if key = k then some (some grp) else lookupNode ns k := by
  induction ns with
  | nil => simp [setGroup, lookupNode]
  | cons p ps ih =>
    by_cases hp : p.1 = key
    · rw [setGroup, if_pos hp]
      by_cases hk : key = k
      · simp [lookupNode, hk]
      · have hpk : ¬ p.1 = k := by rw [hp]; exact hk
        simp [lookupNode, hk, hpk]
    · rw [setGroup, if_neg hp]
      by_cases hpk : p.1 = k
      · have hkk : ¬ key = k := fun h => hp (by rw [hpk, h])
        simp [lookupNode, hpk, hkk]
      · simp [lookupNode, hpk, ih]

theorem countKey_setGroup (ns : List (String × Option Nat)) (key k : String) (grp : Nat) :
    countKey (setGroup ns key grp) k =
      if key = k then max 1 (countKey ns k) else countKey ns k := by
  induction ns with
  | nil => by_cases h : key = k <;> simp [setGroup, countKey, h]
  | cons p ps ih =>
    by_cases hp : p.1 = key
    · rw [setGroup, if_pos hp]
      by_cases hk : key = k
      · have hpk : p.1 = k := hp.trans hk
        simp [countKey, List.filter_cons, hk, hpk]
      · have hpk : ¬ p.1 = k := by rw [hp]; exact hk
        simp [countKey, List.filter_cons, hk, hpk]
    · rw [setGroup, if_neg hp]
      by_cases hk : key = k
      · have hpk : ¬ p.1 = k := fun h => hp (h.trans hk.symm)
        have h2 := ih
        simp only [countKey, List.filter_cons] at h2 ⊢
        simp [hpk, hk] at h2 ⊢
        omega
      · by_cases hpk : p.1 = k
        · have h2 := ih
          simp only [countKey, List.filter_cons] at h2 ⊢
          simp [hpk, hk] at h2 ⊢
          omega
        · have h2 := ih
          simp only [countKey, List.filter_cons] at h2 ⊢
          simp [hpk, hk] at h2 ⊢
          omega

theorem mem_keys_setGroup_self (ns : List (String × Option Nat)) (key : String) (grp : Nat) :
    key ∈ (setGroup ns key grp).map Prod.fst := by
  induction ns with
  | nil => simp [setGroup]
  | cons p ps ih =>
    by_cases hp : p.1 = key
    · rw [setGroup, if_pos hp]; simp
    · rw [setGroup, if_neg hp]; simpa using Or.inr ih

theorem mem_keys_setGroup_of (ns : List (String × Option Nat)) (key : String) (grp : Nat)
    (k : String) (h : k ∈ ns.map Prod.fst) : k ∈ (setGroup ns key grp).map Prod.fst := by
  induction ns with
  | nil => simp at h
  | cons p ps ih =>
    rw [List.map_cons, List.mem_cons] at h
    by_cases hp : p.1 = key
    · rw [setGroup, if_pos hp]
      rcases h with hk | hk
      · rw [hk, hp]
        simp
      · simpa using Or.inr hk
    · rw [setGroup, if_neg hp]
      rcases h with hk | hk
      · simpa using Or.inl hk
      · simpa using Or.inr (ih hk)

theorem ensureNode_of_mem (ns : List (String × Option Nat)) (key : String)
    (h : key ∈ ns.map Prod.fst) : ensureNode ns key = ns := by
  induction ns with
  | nil => simp at h
  | cons p ps ih =>
    by_cases hp : p.1 = key
    · rw [ensureNode, if_pos hp]
    · rw [ensureNode, if_neg hp]
      have : key ∈ ps.map Prod.fst := by
        rcases List.mem_map.mp h with ⟨x, hx, hxk⟩
        rcases List.mem_cons.mp hx with rfl | hx'
        · exact absurd hxk hp
        · exact List.mem_map.mpr ⟨x, hx', hxk⟩
      rw [ih this]

theorem mem_setGroup (ns : List (String × Option Nat)) (key : String) (grp : Nat)
    (p : String × Option Nat) (h : p ∈ setGroup ns key grp) :
    p ∈ ns ∨ p = (key, some grp) := by
  induction ns with
  | nil =>
    simp [setGroup] at h
    exact Or.inr h
  | cons q qs ih =>
    by_cases hq : q.1 = key
    · rw [setGroup, if_pos hq] at h
      rcases List.mem_cons.mp h with rfl | h'
      · exact Or.inr rfl
      · exact Or.inl (List.mem_cons_of_mem q h')
    · rw [setGroup, if_neg hq] at h
      rcases List.mem_cons.mp h with heq | h'
      · rw [heq]
        exact Or.inl (List.mem_cons_self q qs)
      · rcases ih h' with h'' | h''
        · exact Or.inl (List.mem_cons_of_mem q h'')
        · exact Or.inr h''

theorem mem_of_lookupNode {ns : List (String × Option Nat)} {k : String} {v : Option Nat}
    (h : lookupNode ns k = some v) : k ∈ ns.map Prod.fst := by
  induction ns with
  | nil => simp [lookupNode] at h
  | cons p ps ih =>
    by_cases hp : p.1 = k
    · simp [hp]
    · rw [lookupNode, if_neg hp] at h
      simpa using Or.inr (ih h)

/-- Characterization of the validation test: an item passes iff it is a
record with all three fields present and non-empty source and target. -/
theorem accepted_iff (it : TripleItem) :
    accepted it = true ↔
      ∃ s t r, it = TripleItem.record (some s) (some t) (some r) ∧ s ≠ "" ∧ t ≠ "" := by
  cases it with
  | other => simp [accepted]
  | record s t r =>
    cases s with
    | none => simp [accepted]
    | some s' =>
      cases t with
      | none => simp [accepted]
      | some t' =>
        cases r with
        | none => simp [accepted]
        | some r' =>
          simp only [accepted, Bool.and_eq_true, decide_eq_true_eq,
            TripleItem.record.injEq, Option.some.injEq]
          constructor
          · rintro ⟨hs, ht⟩
            exact ⟨s', t', r', ⟨rfl, rfl, rfl⟩, hs, ht⟩
          · rintro ⟨s'', t'', r'', ⟨hs, ht, hr⟩, hs', ht'⟩
            subst hs; subst ht
            exact ⟨hs', ht'⟩

/-- A rejected item is a no-op of the loop body. -/
theorem processItem_not_accepted (g : GraphState) (it : TripleItem)
    (h : accepted it = false) : processItem g it = g := by
  cases it with
  | other => rfl
  | record s t r =>
    cases s with
    | none => rfl
    | some s' =>
      cases t with
      | none => rfl
      | some t' =>
        cases r with
        | none => rfl
        | some r' =>
          by_cases hs : s' = ""
          · simp [processItem, hs]
          · by_cases ht : t' = ""
            · simp [processItem, ht]
            · exfalso
              simp [accepted, hs, ht] at h

/-- An accepted item performs the two `add_node` and two `add_edge`
calls of the loop body. -/
theorem processItem_accepted (g : GraphState) (s t r : String)
    (hs : s ≠ "") (ht : t ≠ "") :
    processItem g (TripleItem.record (some s) (some t) (some r)) =
      add_edge (add_edge (add_node (add_node g s 1) t 1) s t r) "Document" s "contains" := by
  simp [processItem, hs, ht]

/-- Edge-list effect of an accepted item. -/
theorem processItem_edges (g : GraphState) (s t r : String)
    (hs : s ≠ "") (ht : t ≠ "") :
    (processItem g (TripleItem.record (some s) (some t) (some r))).edges
      = setEdge (setEdge g.edges (s, t) r) ("Document", s) "contains" := by
  rw [processItem_accepted g s t r hs ht]
  rfl

/-- Rejected items contribute nothing to the built graph. -/
theorem foldl_processItem_filter (ts : List TripleItem) :
    ∀ g : GraphState, ts.foldl processItem g = (ts.filter accepted).foldl processItem g := by
  induction ts with
  | nil => intro g; rfl
  | cons it ts ih =>
    intro g
    by_cases h : accepted it = true
    · rw [List.foldl_cons, List.filter_cons_of_pos h, List.foldl_cons, ih]
    · have h' : accepted it = false := by simpa using h
      rw [List.foldl_cons, processItem_not_accepted g it h',
        List.filter_cons_of_neg (by simp [h']), ih]

/-- The invariant carried through the build loop for the root-node
claim: "Document" occurs exactly once in the node dictionary, its group
is 0 until an accepted item names "Document" (then 1), and every other
node entry has group 1. -/
def InvC1 (g : GraphState) (flag : Bool) : Prop :=
  countKey g.nodes "Document" = 1
  ∧ lookupNode g.nodes "Document" = some (some (cond flag 1 0))
  ∧ ∀ p ∈ g.nodes, p.1 ≠ "Document" → p.2 = some 1

theorem InvC1_init : InvC1 (add_node emptyGraph "Document" 0) false := by
  refine ⟨by decide, by decide, ?_⟩
  intro p hp hne
  simp [add_node, emptyGraph, setGroup] at hp
  rw [hp] at hne
  simp at hne

theorem processItem_InvC1 (g : GraphState) (it : TripleItem) (flag : Bool)
    (h : InvC1 g flag) :
    InvC1 (processItem g it)
      (flag || (accepted it &&
        (decide (it.srcOf = some "Document") || decide (it.tgtOf = some "Document")))) := by
  by_cases hacc : accepted it = true
  · obtain ⟨s, t, r, rfl, hs, ht⟩ := (accepted_iff it).mp hacc
    obtain ⟨h1, h2, h3⟩ := h
    have hDocMem : "Document" ∈ g.nodes.map Prod.fst := mem_of_lookupNode h2
    have hsmem : s ∈ (setGroup (setGroup g.nodes s 1) t 1).map Prod.fst :=
      mem_keys_setGroup_of _ _ _ _ (mem_keys_setGroup_self _ _ _)
    have htmem : t ∈ (setGroup (setGroup g.nodes s 1) t 1).map Prod.fst :=
      mem_keys_setGroup_self _ _ _
    have hDmem : "Document" ∈ (setGroup (setGroup g.nodes s 1) t 1).map Prod.fst :=
      mem_keys_setGroup_of _ _ _ _ (mem_keys_setGroup_of _ _ _ _ hDocMem)
    have hnodes : (processItem g (TripleItem.record (some s) (some t) (some r))).nodes
        = setGroup (setGroup g.nodes s 1) t 1 := by
      rw [processItem_accepted g s t r hs ht]
      show ensureNode (ensureNode (ensureNode (ensureNode
        (setGroup (setGroup g.nodes s 1) t 1) s) t) "Document") s
        = setGroup (setGroup g.nodes s 1) t 1
      rw [ensureNode_of_mem _ _ hsmem, ensureNode_of_mem _ _ htmem,
        ensureNode_of_mem _ _ hDmem, ensureNode_of_mem _ _ hsmem]
    have hflag : (accepted (TripleItem.record (some s) (some t) (some r)) &&
        (decide ((TripleItem.record (some s) (some t) (some r)).srcOf = some "Document")
          || decide ((TripleItem.record (some s) (some t) (some r)).tgtOf = some "Document")))
        = (decide (s = "Document") || decide (t = "Document")) := by
      simp [hacc, TripleItem.srcOf, TripleItem.tgtOf]
    rw [InvC1, hnodes, hflag]
    refine ⟨?_, ?_, ?_⟩
    · rw [countKey_setGroup, countKey_setGroup, h1]
      by_cases hsD : s = "Document" <;> by_cases htD : t = "Document" <;>
        simp [hsD, htD]
    · rw [lookupNode_setGroup, lookupNode_setGroup, h2]
      by_cases hsD : s = "Document" <;> by_cases htD : t = "Document" <;>
        cases flag <;> simp [hsD, htD]
    · intro p hp hne
      rcases mem_setGroup _ _ _ _ hp with hp' | rfl
      · rcases mem_setGroup _ _ _ _ hp' with hp'' | rfl
        · exact h3 p hp'' hne
        · rfl
      · rfl
  · have hacc' : accepted it = false := by simpa using hacc
    rw [processItem_not_accepted g it hacc', hacc']
    simpa using h

theorem foldl_InvC1 (ts : List TripleItem) :
    ∀ (g : GraphState) (flag : Bool), InvC1 g flag →
      InvC1 (ts.foldl processItem g) (flag || namesDocument ts) := by
  induction ts with
  | nil =>
    intro g flag h
    simpa [namesDocument] using h
  | cons it ts ih =>
    intro g flag h
    rw [List.foldl_cons]
    have hstep := processItem_InvC1 g it flag h
    have hrec := ih (processItem g it) _ hstep
    have hassoc : ((flag || (accepted it &&
        (decide (it.srcOf = some "Document") || decide (it.tgtOf = some "Document"))))
        || namesDocument ts) = (flag || namesDocument (it :: ts)) := by
      simp [namesDocument, List.any_cons, Bool.or_assoc]
    rw [hassoc] at hrec
    exact hrec

/-- C1 (amended): for the empty triple list the extractor keeps the
cleared, empty graph (no root node at all); for every non-empty triple
list the assembled graph holds exactly one node with identifier
"Document", whose group is 0 unless some accepted triple names
"Document" as source or target (in which case `add_node(src, group=1)`
or `add_node(tgt, group=1)` has overwritten it to 1), and every node
other than "Document" has group 1. -/
theorem c1_root_node_amended :
    (∀ prior : GraphState,
      (extract_graph_from_text prior (some ([] : List TripleItem))).1 = emptyGraph)
    ∧ (∀ (prior : GraphState) (it : TripleItem) (ts : List TripleItem),
      (extract_graph_from_text prior (some (it :: ts))).1 = assemble (it :: ts))
    ∧ (∀ (it : TripleItem) (ts : List TripleItem),
      countKey (assemble (it :: ts)).nodes "Document" = 1
      ∧ lookupNode (assemble (it :: ts)).nodes "Document"
          = some (some (cond (namesDocument (it :: ts)) 1 0))
      ∧ ((assemble (it :: ts)).nodes.all fun p =>
          decide (p.1 = "Document") || decide (p.2 = some 1)) = true) := by
  refine ⟨fun prior => rfl, fun prior it ts => rfl, fun it ts => ?_⟩
  have h := foldl_InvC1 (it :: ts) (add_node emptyGraph "Document" 0) false InvC1_init
  rw [Bool.false_or] at h
  obtain ⟨h1, h2, h3⟩ := h
  refine ⟨h1, h2, ?_⟩
  rw [List.all_eq_true]
  intro p hp
  by_cases hD : p.1 = "Document"
  · simp [hD]
  · simp [hD, h3 p hp hD]

/-- C1 counterexample: the claim fails on the code.  For the empty
triple list the held graph has no nodes at all, hence no root node; and
for the list `[("Document", "X", "r")]` the "Document" node ends with
group 1, not 0, because `add_node("Document", group=1)` overwrites the
root's attribute. -/
theorem c1_counterexample :
    (extract_graph_from_text emptyGraph (some ([] : List TripleItem))).1.nodes = []
    ∧ lookupNode
        (assemble [TripleItem.record (some "Document") (some "X") (some "r")]).nodes
        "Document" = some (some 1) := by
  constructor
  · rfl
  · rfl

/-- Persistence of edge existence across one loop iteration. -/
theorem lookupEdge_isSome_processItem (g : GraphState) (it : TripleItem)
    (q : String × String) (h : (lookupEdge g.edges q).isSome = true) :
    (lookupEdge (processItem g it).edges q).isSome = true := by
  by_cases hacc : accepted it = true
  · obtain ⟨s, t, r, rfl, hs, ht⟩ := (accepted_iff it).mp hacc
    rw [processItem_edges g s t r hs ht, lookupEdge_setEdge, lookupEdge_setEdge]
    split_ifs <;> simp [h]
  · rw [processItem_not_accepted g it (by simpa using hacc)]
    exact h

/-- Persistence of a "contains" label across one loop iteration whose
item does not have source "Document". -/
theorem contains_persist (g : GraphState) (it : TripleItem) (s : String)
    (hsrc : accepted it = true → it.srcOf ≠ some "Document")
    (h : lookupEdge g.edges ("Document", s) = some "contains") :
    lookupEdge (processItem g it).edges ("Document", s) = some "contains" := by
  by_cases hacc : accepted it = true
  · obtain ⟨s', t', r', rfl, hs', ht'⟩ := (accepted_iff it).mp hacc
    have hsD : s' ≠ "Document" := by
      have := hsrc hacc
      simpa [TripleItem.srcOf] using this
    rw [processItem_edges g s' t' r' hs' ht', lookupEdge_setEdge]
    by_cases h1 : samePair ("Document", s') ("Document", s) = true
    · rw [if_pos h1]
    · rw [if_neg h1, lookupEdge_setEdge]
      have h2 : samePair (s', t') ("Document", s) = false := by
        cases hsp : samePair (s', t') ("Document", s)
        · rfl
        · exfalso
          have hsp' : (s' = "Document" ∧ t' = s) ∨ (s' = s ∧ t' = "Document") := by
            simpa [samePair, decide_eq_true_eq] using hsp
          rcases hsp' with ⟨h3, _⟩ | ⟨h3, _⟩
          · exact hsD h3
          · apply h1
            simp [samePair, decide_eq_true_eq]
            exact Or.inl h3
      rw [if_neg (by simp [h2]), h]
  · rw [processItem_not_accepted g it (by simpa using hacc)]
    exact h

/-- After an accepted item is processed, the pair ("Document", source)
is labeled "contains" (the second `add_edge` of the iteration). -/
theorem contains_new (g : GraphState) (s t r : String) (hs : s ≠ "") (ht : t ≠ "") :
    lookupEdge (processItem g (TripleItem.record (some s) (some t) (some r))).edges
      ("Document", s) = some "contains" := by
  rw [processItem_edges g s t r hs ht, lookupEdge_setEdge, if_pos (samePair_refl _)]

theorem foldl_edge_exists (ts : List TripleItem) :
    ∀ g : GraphState,
      (∀ q : String × String, (lookupEdge g.edges q).isSome = true →
        (lookupEdge (ts.foldl processItem g).edges q).isSome = true)
      ∧ (∀ s t r : String, TripleItem.record (some s) (some t) (some r) ∈ ts →
          s ≠ "" → t ≠ "" →
          (lookupEdge (ts.foldl processItem g).edges ("Document", s)).isSome = true) := by
  induction ts with
  | nil =>
    intro g
    exact ⟨fun q h => h, fun s t r hmem => absurd hmem (List.not_mem_nil _)⟩
  | cons it ts ih =>
    intro g
    obtain ⟨pres, new⟩ := ih (processItem g it)
    constructor
    · intro q h
      rw [List.foldl_cons]
      exact pres q (lookupEdge_isSome_processItem g it q h)
    · intro s t r hmem hs ht
      rw [List.foldl_cons]
      rcases List.mem_cons.mp hmem with heq | hmem'
      · refine pres ("Document", s) ?_
        rw [← heq, contains_new g s t r hs ht]
        rfl
      · exact new s t r hmem' hs ht

theorem foldl_contains (ts : List TripleItem) :
    ∀ g : GraphState,
      (∀ it ∈ ts, accepted it = true → it.srcOf ≠ some "Document") →
      (∀ s : String, lookupEdge g.edges ("Document", s) = some "contains" →
        lookupEdge (ts.foldl processItem g).edges ("Document", s) = some "contains")
      ∧ (∀ s t r : String, TripleItem.record (some s) (some t) (some r) ∈ ts →
          s ≠ "" → t ≠ "" →
          lookupEdge (ts.foldl processItem g).edges ("Document", s) = some "contains") := by
  induction ts with
  | nil =>
    intro g _
    exact ⟨fun s h => h, fun s t r hmem => absurd hmem (List.not_mem_nil _)⟩
  | cons it ts ih =>
    intro g hsrc
    have hit : accepted it = true → it.srcOf ≠ some "Document" :=
      hsrc it (List.mem_cons_self it ts)
    have hts : ∀ x ∈ ts, accepted x = true → x.srcOf ≠ some "Document" :=
      fun x hx => hsrc x (List.mem_cons_of_mem it hx)
    obtain ⟨pres, new⟩ := ih (processItem g it) hts
    constructor
    · intro s h
      rw [List.foldl_cons]
      exact pres s (contains_persist g it s hit h)
    · intro s t r hmem hs ht
      rw [List.foldl_cons]
      rcases List.mem_cons.mp hmem with heq | hmem'
      · refine pres s ?_
        rw [← heq]
        exact contains_new g s t r hs ht
      · exact new s t r hmem' hs ht

/-- C2 (amended): for every accepted triple the assembled graph holds
an edge joining "Document" and the triple's source (even when source
equals target); and as long as no accepted triple has source
"Document", that edge is labeled "contains".  (A later accepted triple
of the form ("Document", src, rel) overwrites the single undirected
edge's label, which is what the counterexample exhibits.) -/
theorem c2_contains_edge_amended (ts : List TripleItem) (s t r : String)
    (hmem : TripleItem.record (some s) (some t) (some r) ∈ ts)
    (hs : s ≠ "") (ht : t ≠ "") :
    (lookupEdge (assemble ts).edges ("Document", s)).isSome = true
    ∧ (noDocumentSource ts = true →
        lookupEdge (assemble ts).edges ("Document", s) = some "contains") := by
  constructor
  · exact (foldl_edge_exists ts _).2 s t r hmem hs ht
  · intro hnds
    have hsrc : ∀ it ∈ ts, accepted it = true → it.srcOf ≠ some "Document" := by
      intro it hit hacc
      have hp := List.all_eq_true.mp hnds it hit
      simpa [hacc] using hp
    exact (foldl_contains ts _ hsrc).2 s t r hmem hs ht

/-- Witness for the amended C2, at a triple whose source equals its
target. -/
theorem c2_contains_edge_witness :
    TripleItem.record (some "X") (some "X") (some "likes")
        ∈ [TripleItem.record (some "X") (some "X") (some "likes")]
    ∧ "X" ≠ ""
    ∧ ((lookupEdge
          (assemble [TripleItem.record (some "X") (some "X") (some "likes")]).edges
          ("Document", "X")).isSome = true
      ∧ (noDocumentSource [TripleItem.record (some "X") (some "X") (some "likes")] = true →
          lookupEdge
            (assemble [TripleItem.record (some "X") (some "X") (some "likes")]).edges
            ("Document", "X") = some "contains")) :=
  ⟨by decide, by decide,
    c2_contains_edge_amended
      [TripleItem.record (some "X") (some "X") (some "likes")]
      "X" "X" "likes" (by decide) (by decide) (by decide)⟩

/-- C2 counterexample: the claim fails on the code.  In the list
`[("X","Y","r"), ("Document","X","b")]` both triples are accepted, yet
after assembly the single undirected edge joining "Document" and "X"
carries label "b" (the second triple overwrote the "contains" label
written for the first), so no edge labeled "contains" joins the root to
the first triple's source "X". -/
theorem c2_counterexample :
    lookupEdge
      (assemble [TripleItem.record (some "X") (some "Y") (some "r"),
                 TripleItem.record (some "Document") (some "X") (some "b")]).edges
      ("Document", "X") = some "b"
    ∧ ((assemble [TripleItem.record (some "X") (some "Y") (some "r"),
                  TripleItem.record (some "Document") (some "X") (some "b")]).edges.filter
        fun e => samePair e.1 ("Document", "X") && decide (e.2 = "contains")).length = 0 := by
  constructor
  · rfl
  · rfl

/-- The distinct-unordered-pairs property of the edge list. -/
def pairsDistinct (es : List ((String × String) × String)) : Prop :=
  es.Pairwise fun e1 e2 => samePair e1.1 e2.1 = false

theorem setEdge_fst_mem (es : List ((String × String) × String))
    (p : String × String) (lab : String) :
    ∀ e ∈ setEdge es p lab, e.1 ∈ es.map (fun x => x.1) ∨ e.1 = p := by
  induction es with
  | nil =>
    intro e he
    simp [setEdge] at he
    rw [he]
    exact Or.inr rfl
  | cons f es ih =>
    intro e he
    by_cases hf : samePair f.1 p = true
    · rw [setEdge, if_pos hf] at he
      rcases List.mem_cons.mp he with heq | he'
      · rw [heq]
        exact Or.inl (by simp)
      · refine Or.inl ?_
        rw [List.map_cons]
        exact List.mem_cons_of_mem _ (List.mem_map_of_mem _ he')
    · rw [setEdge, if_neg hf] at he
      rcases List.mem_cons.mp he with heq | he'
      · rw [heq]
        exact Or.inl (by simp)
      · rcases ih e he' with hmem | heq
        · refine Or.inl ?_
          rw [List.map_cons]
          exact List.mem_cons_of_mem _ hmem
        · exact Or.inr heq

theorem pairsDistinct_setEdge (es : List ((String × String) × String))
    (p : String × String) (lab : String) (h : pairsDistinct es) :
    pairsDistinct (setEdge es p lab) := by
  induction es with
  | nil => simp [setEdge, pairsDistinct]
  | cons f es ih =>
    rw [pairsDistinct, List.pairwise_cons] at h
    obtain ⟨hf, hes⟩ := h
    by_cases hfp : samePair f.1 p = true
    · rw [setEdge, if_pos hfp, pairsDistinct, List.pairwise_cons]
      exact ⟨fun e he => hf e he, hes⟩
    · have hfp' : samePair f.1 p = false := by simpa using hfp
      rw [setEdge, if_neg hfp, pairsDistinct, List.pairwise_cons]
      constructor
      · intro e he
        rcases setEdge_fst_mem es p lab e he with hmem | heq
        · rcases List.mem_map.mp hmem with ⟨x, hx, hxe⟩
          have hx' := hf x hx
          rw [← hxe]
          exact hx'
        · rw [heq]
          exact hfp'
      · exact ih hes

theorem pairsDistinct_processItem (g : GraphState) (it : TripleItem)
    (h : pairsDistinct g.edges) : pairsDistinct (processItem g it).edges := by
  by_cases hacc : accepted it = true
  · obtain ⟨s, t, r, rfl, hs, ht⟩ := (accepted_iff it).mp hacc
    rw [processItem_edges g s t r hs ht]
    exact pairsDistinct_setEdge _ _ _ (pairsDistinct_setEdge _ _ _ h)
  · rw [processItem_not_accepted g it (by simpa using hacc)]
    exact h

theorem foldl_pairsDistinct (ts : List TripleItem) :
    ∀ g : GraphState, pairsDistinct g.edges →
      pairsDistinct ((ts.foldl processItem g)).edges := by
  induction ts with
  | nil => intro g h; exact h
  | cons it ts ih =>
    intro g h
    rw [List.foldl_cons]
    exact ih (processItem g it) (pairsDistinct_processItem g it h)

/-- C3 (amended): the assembled graph is an undirected *simple* graph,
not a multigraph: its edge list never holds two entries for the same
unordered pair of identifiers; writing an edge for an already-connected
pair overwrites that edge's label (the last write wins); and
`get_graph_data` emits exactly one link per stored edge. -/
theorem c3_simple_graph_amended (ts : List TripleItem) :
    pairsDistinct (assemble ts).edges
    ∧ (∀ (es : List ((String × String) × String)) (p : String × String) (lab : String),
        lookupEdge (setEdge es p lab) p = some lab)
    ∧ (get_graph_data (assemble ts)).2
        = (assemble ts).edges.map (fun e => (e.1.1, e.1.2, e.2))
    ∧ (get_graph_data (assemble ts)).2.length = (assemble ts).edges.length := by
  refine ⟨?_, ?_, rfl, by simp [get_graph_data]⟩
  · exact foldl_pairsDistinct ts _ (by simp [add_node, emptyGraph, pairsDistinct])
  · intro es p lab
    rw [lookupEdge_setEdge, if_pos (samePair_refl p)]

/-- C3 counterexample: the claim fails on the code.  Two accepted
triples joining the same pair ("A","B") with labels "r1" and "r2" leave
only one edge for that pair, labeled "r2"; the label "r1" is gone from
the graph (and hence from the links list), because `nx.Graph` keeps a
single edge per unordered pair. -/
theorem c3_counterexample :
    (assemble [TripleItem.record (some "A") (some "B") (some "r1"),
               TripleItem.record (some "A") (some "B") (some "r2")]).edges
      = [(("A", "B"), "r2"), (("Document", "A"), "contains")]
    ∧ ((assemble [TripleItem.record (some "A") (some "B") (some "r1"),
                  TripleItem.record (some "A") (some "B") (some "r2")]).edges.filter
        fun e => decide (e.2 = "r1")).length = 0 := by
  constructor
  · rfl
  · rfl

/-- C4 (amended): an item is accepted iff it is a record with `source`,
`target` and `relation` present and non-empty `source` and `target`;
rejected items contribute nothing to the assembled graph and are
skipped silently (the loop `continue`s, the extraction never fails on
them) — but the triple list returned by `extract_graph_from_text` is
the *raw* parsed list, which still contains the rejected items. -/
theorem c4_validation_amended :
    (∀ (prior : GraphState) (ts : List TripleItem),
      (extract_graph_from_text prior (some ts)).2 = some ts)
    ∧ (∀ ts : List TripleItem, assemble ts = assemble (ts.filter accepted))
    ∧ (∀ it : TripleItem, accepted it = true ↔
        ∃ s t r, it = TripleItem.record (some s) (some t) (some r) ∧ s ≠ "" ∧ t ≠ "") := by
  refine ⟨?_, ?_, accepted_iff⟩
  · intro prior ts
    cases ts <;> rfl
  · intro ts
    exact foldl_processItem_filter ts _

/-- C4 counterexample: the claim fails on the code.  The item
`("", "x", "r")` is rejected by validation, contributes nothing to the
graph, yet the list returned by `extract_graph_from_text` still
contains it — invalid items are *not* excluded from the returned triple
list. -/
theorem c4_counterexample :
    accepted (TripleItem.record (some "") (some "x") (some "r")) = false
    ∧ (extract_graph_from_text emptyGraph
        (some [TripleItem.record (some "a") (some "b") (some "r"),
               TripleItem.record (some "") (some "x") (some "r")])).2
      = some [TripleItem.record (some "a") (some "b") (some "r"),
              TripleItem.record (some "") (some "x") (some "r")]
    ∧ TripleItem.record (some "") (some "x") (some "r")
        ∈ [TripleItem.record (some "a") (some "b") (some "r"),
           TripleItem.record (some "") (some "x") (some "r")]
    ∧ lookupNode
        (assemble [TripleItem.record (some "a") (some "b") (some "r"),
                   TripleItem.record (some "") (some "x") (some "r")]).nodes "x" = none := by
  refine ⟨rfl, rfl, by decide, rfl⟩

/-- C10: on any failing extraction (gateway failure, or a response from
which no JSON object can be recovered — both re-raise after the
`self.graph.clear()` at the top of the call) the held graph is empty
afterwards, whatever graph was held before the call: the previous graph
is cleared at the start and never restored. -/
theorem c10_failure_clears_graph (prior : GraphState) :
    (extract_graph_from_text prior none).1 = emptyGraph
    ∧ (extract_graph_from_text prior none).1.nodes = []
    ∧ (extract_graph_from_text prior none).1.edges = []
    ∧ (extract_graph_from_text prior none).2 = none :=
  ⟨rfl, rfl, rfl, rfl⟩

/-! ### Chat post-processing (`main.chat`)

Python source (the relevant parts):
```
rate_limits = ()
try:
    response_text, rate_limits = query_llm(...)
except Exception as e:
    error_str = str(e)
    if "413" in error_str or "Payload Too Large" in error_str:
        response_text = "The question or context is too long. ..."
    elif "rate limit" in error_str.lower() or "429" in error_str:
        response_text = "API Rate Limit reached. ..."
    else:
        response_text = "I encountered a technical issue ..."
if session.graph_agent.graph:
    all_nodes = list(session.graph_agent.graph.nodes())
    def normalize_text(text):
        text = text.lower().replace("**", "").replace("*", "")
        return "".join(c for c in text if c.isalnum() or c.isspace())
    normalized_response = normalize_text(response_text)
    for node_id in all_nodes:
        clean_node = node_id.lower().strip()
        clean_response = response_text.lower()
        if len(clean_node) > 3 and clean_node in clean_response:
            highlighted_nodes.append(node_id); continue
        node_tokens = set(normalize_text(node_id).split())
        if not node_tokens: continue
        match_count = 0
        for token in node_tokens:
            if len(token) > 2 and token in normalized_response:
                match_count += 1
        if len(node_tokens) > 0 and (match_count / len(node_tokens)) >= 0.5:
            highlighted_nodes.append(node_id)
```
Modelling notes.  `.replace("**", "").replace("*", "")` removes every
asterisk, and the subsequent filter would drop asterisks anyway; the
model removes all `'*'`.  Python's `set(...)` of tokens is modelled by
`List.dedup` (iteration order only affects a count).  The float test
`match_count / len(node_tokens) >= 0.5` is modelled by the exact
integer inequality `2 * match_count ≥ len(node_tokens)` (0.5 is an
exact binary float, and the quotient of list-sized naturals rounds
across 0.5 only for denominators beyond 2^52).  An `nx` graph is truthy
iff it has nodes.  The gateway call is abstracted as an
`Except String (String × rate-limits)` outcome; the `except` branch
never re-raises, so the model is a total function. -/

/-- Python `str.lower()` (character-wise). -/
def pyLower (s : List Char) : List Char := s.map Char.toLower

/-- The effect of `.replace("**", "").replace("*", "")`. -/
def removeStars (s : List Char) : List Char := s.filter fun c => decide (c ≠ '*')

/-- `normalize_text` of `main.chat`: lowercase, strip Markdown emphasis
markers, keep only alphanumeric and whitespace characters. -/
def normalize_text (s : List Char) : List Char :=
  (removeStars (pyLower s)).filter fun c => c.isAlphanum || c.isWhitespace

/-- Python `str.strip()`: drop leading and trailing whitespace. -/
def pyStrip (s : List Char) : List Char :=
  ((s.dropWhile Char.isWhitespace).reverse.dropWhile Char.isWhitespace).reverse

/-- Python `str.split()` with no separator: split on whitespace runs,
dropping empty fields. -/
def splitWs (s : List Char) : List (List Char) :=
  (List.splitOnP (fun c => c.isWhitespace) s).filter fun t => decide (t ≠ [])

/-- Python's substring test `needle in hay`. -/
def isSub (needle hay : List Char) : Bool :=
  (List.range (hay.length + 1)).any fun i => needle.isPrefixOf (hay.drop i)

/-- The per-node highlighting decision of `main.chat`: rule (a) is the
raw lowercased/trimmed substring test for ids longer than 3 characters;
rule (b) counts the distinct normalized tokens that are longer than 2
characters and occur in the normalized answer, and compares that count
to *half of all distinct tokens*. -/
def highlightNode (nodeId answer : List Char) : Bool :=
  if decide ((pyStrip (pyLower nodeId)).length > 3)
      && isSub (pyStrip (pyLower nodeId)) (pyLower answer) then true
  else if ((splitWs (normalize_text nodeId)).dedup).isEmpty then false
  else decide (2 * (((splitWs (normalize_text nodeId)).dedup).filter
      (fun t => decide (t.length > 2) && isSub t (normalize_text answer))).length
    ≥ ((splitWs (normalize_text nodeId)).dedup).length)

/-- The highlighted-nodes list of `main.chat`: empty when the graph has
no nodes, else the nodes whose decision is positive, in node order. -/
def highlightedNodes (nodes : List String) (resp : String) : List String :=
  if nodes.isEmpty then []
  else nodes.filter fun n => highlightNode n.toList resp.toList

/-- The fixed degraded response for payload-too-large failures. -/
def chatMsgTooLong : String :=
  "The question or context is too long. GitHub Models Free Trial limits GPT-4o Mini to 8k tokens. Please try shortening your query."

/-- The fixed degraded response for rate-limit failures. -/
def chatMsgRateLimited : String :=
  "API Rate Limit reached. Please wait a moment and try again."

/-- The fixed degraded response for any other gateway failure. -/
def chatMsgGeneric : String :=
  "I encountered a technical issue while processing your request. Please try again."

/-- The `except` branch of `main.chat`: pick one of the three fixed
degraded responses by inspecting the error text. -/
def chatFallbackResponse (errMsg : String) : String :=
  if isSub "413".toList errMsg.toList
      || isSub "Payload Too Large".toList errMsg.toList then chatMsgTooLong
  else if isSub "rate limit".toList (pyLower errMsg.toList)
      || isSub "429".toList errMsg.toList then chatMsgRateLimited
  else chatMsgGeneric

/-- The chat turn after retrieval: given the graph's node list and the
gateway outcome, produce the response text, the rate-limit info, and
the highlighted nodes.  On failure the degraded response is also the
text the highlighter runs on, and `rate_limits` keeps its initial empty
value. -/
def chatRespond (graphNodes : List String)
    (llm : Except String (String × List (String × String))) :
    String × List (String × String) × List String :=
  match llm with
  | .ok (text, rl) => (text, rl, highlightedNodes graphNodes text)
  | .error e =>
    (chatFallbackResponse e, [], highlightedNodes graphNodes (chatFallbackResponse e))

/-- C8: the chat turn is a total function of its inputs (it never
raises past its own boundary and always yields some response string);
on any gateway failure the response is one of the three fixed degraded
strings — never the propagated error — and the returned rate-limit
info is empty; and with an empty graph the highlighted-nodes list is
empty, whatever the gateway outcome (an empty retrieval index included,
since the outcome is arbitrary). -/
theorem c8_chat_degraded :
    (∀ (nodes : List String) (llm : Except String (String × List (String × String))),
      ∃ resp rl hl, chatRespond nodes llm = (resp, rl, hl))
    ∧ (∀ (nodes : List String) (e : String),
        (chatRespond nodes (Except.error e)).1 = chatMsgTooLong
        ∨ (chatRespond nodes (Except.error e)).1 = chatMsgRateLimited
        ∨ (chatRespond nodes (Except.error e)).1 = chatMsgGeneric)
    ∧ (∀ (nodes : List String) (e : String),
        (chatRespond nodes (Except.error e)).2.1 = [])
    ∧ (∀ llm : Except String (String × List (String × String)),
        (chatRespond ([] : List String) llm).2.2 = []) := by
  refine ⟨fun nodes llm => ⟨_, _, _, rfl⟩, ?_, fun nodes e => rfl, ?_⟩
  · intro nodes e
    have hfb : (chatRespond nodes (Except.error e)).1 = chatFallbackResponse e := rfl
    rw [hfb]
    unfold chatFallbackResponse
    split_ifs
    · exact Or.inl rfl
    · exact Or.inr (Or.inl rfl)
    · exact Or.inr (Or.inr rfl)
  · intro llm
    cases llm with
    | error e => rfl
    | ok pr =>
      obtain ⟨text, rl⟩ := pr
      rfl

/-- C9 (amended): a node is highlighted iff (a) its lowercased trimmed
id is longer than 3 characters and occurs in the lowercased answer, or
(b) its normalized id has at least one distinct whitespace token and
the number of distinct tokens that are both longer than 2 characters
and occur in the normalized answer is at least 50% of *all* distinct
tokens (the code divides by the full token count, not by the count of
tokens longer than 2 characters); a node with zero tokens never
matches, the decision is a pure function of the two strings, and each
node is decided independently.  The spec's two examples behave as
stated. -/
theorem c9_highlighting_amended :
    (∀ nodeId answer : List Char,
      highlightNode nodeId answer = true ↔
        (((pyStrip (pyLower nodeId)).length > 3
            ∧ isSub (pyStrip (pyLower nodeId)) (pyLower answer) = true)
        ∨ ((splitWs (normalize_text nodeId)).dedup ≠ []
            ∧ 2 * (((splitWs (normalize_text nodeId)).dedup).filter
                (fun t => decide (t.length > 2) && isSub t (normalize_text answer))).length
              ≥ ((splitWs (normalize_text nodeId)).dedup).length)))
    ∧ highlightNode "Elon Musk".toList "Elon Musk founded SpaceX in 2002.".toList = true
    ∧ highlightNode "Founding Date".toList "The company was founded in 2002.".toList = false := by
  refine ⟨?_, by rfl, by rfl⟩
  intro nodeId answer
  unfold highlightNode
  by_cases h1 : (decide ((pyStrip (pyLower nodeId)).length > 3)
      && isSub (pyStrip (pyLower nodeId)) (pyLower answer)) = true
  · rw [if_pos h1]
    simp only [Bool.and_eq_true, decide_eq_true_eq] at h1
    simp [h1]
  · rw [if_neg h1]
    have h1' : ¬((pyStrip (pyLower nodeId)).length > 3
        ∧ isSub (pyStrip (pyLower nodeId)) (pyLower answer) = true) := by
      intro hc
      apply h1
      simp [hc.1, hc.2]
    by_cases h2 : ((splitWs (normalize_text nodeId)).dedup).isEmpty = true
    · rw [if_pos h2]
      have h2' : (splitWs (normalize_text nodeId)).dedup = [] := by
        simpa using h2
      simp [h1', h2']
    · rw [if_neg h2]
      have h2' : (splitWs (normalize_text nodeId)).dedup ≠ [] := by
        simpa using h2
      simp [h1', h2']

/-- The matching rule exactly as the claim words it: in rule (b) the
denominator counts only the qualifying tokens (those longer than 2
characters), and a node with zero qualifying tokens never matches. -/
def highlightClaimC9 (nodeId answer : List Char) : Bool :=
  if decide ((pyStrip (pyLower nodeId)).length > 3)
      && isSub (pyStrip (pyLower nodeId)) (pyLower answer) then true
  else
    if ((((splitWs (normalize_text nodeId)).dedup).filter
        (fun t => decide (t.length > 2)))).isEmpty then false
    else decide (2 * (((((splitWs (normalize_text nodeId)).dedup).filter
        (fun t => decide (t.length > 2)))).filter
          (fun t => isSub t (normalize_text answer))).length
      ≥ ((((splitWs (normalize_text nodeId)).dedup).filter
          (fun t => decide (t.length > 2)))).length)

/-- C9 counterexample: the claim fails on the code.  For the node id
"a b language" and an answer "language", the claim's rule (b) matches
(its only token longer than 2 characters, "language", occurs: 1 of 1 ≥
50%), but the code does not highlight the node (1 found token against
3 distinct tokens in the denominator: 1/3 < 50%). -/
theorem c9_counterexample :
    highlightClaimC9 "a b language".toList "language".toList = true
    ∧ highlightNode "a b language".toList "language".toList = false := by
  constructor
  · rfl
  · rfl

end CogniGraph
